import Mathlib

/-!
Verification development for the langfuse-dashboard client
(`src/static/js/notifications.js` and `src/static/js/app.js`).

The JavaScript is shallowly embedded: pure helpers become Lean functions,
the stateful parts (the notification manager, the dashboard load action)
become explicit state-passing functions, JS numbers used for latencies and
token counts become `ℚ` (their arithmetic here is exact), JS strings become
`String` or `List Char`, and absent/null fields become `Option`.
The host `Date` API (used only to turn a timestamp into its UTC calendar
day) is not code of this repository; it enters as an explicit
`parseDay : String → Option String` argument, `none` standing for the
`RangeError` that `toISOString` raises on an invalid date.
-/

/-! ## Notification manager (`notifications.js`)

State of the `NotificationManager` singleton.  Notifications are
identified by the order of their creation (`nextId` counts them).
`live` is the `this.notifications` tracking array; a notification is in
the DOM container exactly while it is in `live`, because `show` appends
to both together and the 300 ms removal callback removes from both
together.  `pendingRemoval` holds the removal callbacks scheduled by
`dismiss` (each fires 300 ms after its `dismiss` call); `pendingAuto`
holds the auto-dismiss timers scheduled by `show` for a positive
duration. -/

structure NotifState where
  live : List ℕ
  pendingRemoval : List ℕ
  pendingAuto : List ℕ
  nextId : ℕ
deriving DecidableEq

/-- `this.maxNotifications = 5` in the constructor. -/
def maxNotifications : ℕ := 5

/-- `NotificationManager.dismiss(notification)`: if the notification is no
longer in the document it returns at once; otherwise it adds the
`slide-out` class (purely visual) and schedules a callback 300 ms later
that removes the element from the document and splices it from the
tracking array.  Nothing is removed from `live` here. -/
def dismiss (s : NotifState) (n : ℕ) : NotifState :=
  if n ∈ s.live then { s with pendingRemoval := s.pendingRemoval ++ [n] } else s

/-- The body of the `setTimeout(..., 300)` scheduled by `dismiss`: remove
the element from the document (if still attached) and splice it from the
tracking array (if still present). -/
def fireRemoval (s : NotifState) (n : ℕ) : NotifState :=
  { s with live := s.live.erase n, pendingRemoval := s.pendingRemoval.erase n }

/-- The body of the auto-dismiss `setTimeout(..., duration)` scheduled by
`show`: it just calls `dismiss`. -/
def fireAutoDismiss (s : NotifState) (n : ℕ) : NotifState :=
  dismiss { s with pendingAuto := s.pendingAuto.erase n } n

/-- `NotificationManager.show(message, type, title, duration)` (also the
global `showNotification` wrapper): when the tracking array already holds
`maxNotifications` elements it calls `dismiss` on `this.notifications[0]`,
then creates the element, appends it to the container, pushes it onto the
tracking array, and if `duration > 0` schedules an auto-dismiss timer. -/
def showNotification (s : NotifState) (duration : ℕ) : NotifState :=
  let s1 := if maxNotifications ≤ s.live.length then
      match s.live.head? with
      | some oldest => dismiss s oldest
      | none => s
    else s
  { s1 with
      live := s1.live ++ [s1.nextId],
      pendingAuto := if 0 < duration then s1.pendingAuto ++ [s1.nextId] else s1.pendingAuto,
      nextId := s1.nextId + 1 }

/-- `getCount()` / global `getNotificationCount()`. -/
def getCount (s : NotifState) : ℕ := s.live.length

/-- C1, counterexample.  Invoking `show` while 5 notifications are tracked
does not remove the oldest from the tracking array: `dismiss` only
schedules its removal for 300 ms later, so immediately after `show` the
tracked count is 6 and the oldest notification is still tracked,
contradicting the claim that after every `show` the count never
exceeds 5. -/
theorem show_at_capacity_count_reaches_six :
    getCount (showNotification ⟨[0, 1, 2, 3, 4], [], [], 5⟩ 5000) = 6 ∧
    0 ∈ (showNotification ⟨[0, 1, 2, 3, 4], [], [], 5⟩ 5000).live := by
  decide

/-- C1, amended.  Whenever `show` is invoked while exactly 5 notifications
are tracked, the oldest (first-enqueued) one is dismissed, meaning its
removal is scheduled for after the 300 ms exit transition rather than
performed at once: directly after `show` all 6 notifications are tracked
(the 5 old ones plus the new one at the end), the oldest has a pending
removal callback, and once that callback fires exactly the oldest has been
removed, leaving the other 4 plus the new one — 5 in total. -/
theorem show_at_capacity_schedules_oldest_removal (s : NotifState) (d : ℕ)
    (h : s.live.length = maxNotifications) :
    ∃ oldest rest, s.live = oldest :: rest ∧
      (showNotification s d).live = oldest :: (rest ++ [s.nextId]) ∧
      getCount (showNotification s d) = maxNotifications + 1 ∧
      oldest ∈ (showNotification s d).pendingRemoval ∧
      (fireRemoval (showNotification s d) oldest).live = rest ++ [s.nextId] ∧
      getCount (fireRemoval (showNotification s d) oldest) = maxNotifications := by
  obtain ⟨oldest, rest, hl⟩ : ∃ o r, s.live = o :: r := by
    cases hl : s.live with
    | nil => rw [hl] at h; simp [maxNotifications] at h
    | cons a t => exact ⟨a, t, rfl⟩
  have hlen : rest.length = 4 := by
    rw [hl] at h
    simpa [maxNotifications] using h
  have hcap : maxNotifications ≤ s.live.length := by rw [h]
  have hhead : s.live.head? = some oldest := by rw [hl]; rfl
  have hmem : oldest ∈ s.live := by rw [hl]; exact List.mem_cons_self _ _
  have hshow : showNotification s d =
      { live := oldest :: (rest ++ [s.nextId]),
        pendingRemoval := s.pendingRemoval ++ [oldest],
        pendingAuto := if 0 < d then s.pendingAuto ++ [s.nextId] else s.pendingAuto,
        nextId := s.nextId + 1 } := by
    simp only [showNotification, if_pos hcap, hhead, dismiss, if_pos hmem]
    simp [hl]
  refine ⟨oldest, rest, hl, by rw [hshow], ?_, by simp [hshow], ?_, ?_⟩
  · rw [hshow]
    simp [getCount, hlen, maxNotifications]
  · rw [hshow]
    simp [fireRemoval]
  · rw [hshow]
    simp [getCount, fireRemoval, hlen, maxNotifications]

/-- C1, witness for the amended theorem at a concrete full state. -/
theorem show_at_capacity_schedules_oldest_removal_witness :
    (⟨[0, 1, 2, 3, 4], [], [], 5⟩ : NotifState).live.length = maxNotifications ∧
    ∃ oldest rest, (⟨[0, 1, 2, 3, 4], [], [], 5⟩ : NotifState).live = oldest :: rest ∧
      (showNotification ⟨[0, 1, 2, 3, 4], [], [], 5⟩ 5000).live = oldest :: (rest ++ [5]) ∧
      getCount (showNotification ⟨[0, 1, 2, 3, 4], [], [], 5⟩ 5000) = maxNotifications + 1 ∧
      oldest ∈ (showNotification ⟨[0, 1, 2, 3, 4], [], [], 5⟩ 5000).pendingRemoval ∧
      (fireRemoval (showNotification ⟨[0, 1, 2, 3, 4], [], [], 5⟩ 5000) oldest).live = rest ++ [5] ∧
      getCount (fireRemoval (showNotification ⟨[0, 1, 2, 3, 4], [], [], 5⟩ 5000) oldest) =
        maxNotifications :=
  ⟨by decide, show_at_capacity_schedules_oldest_removal ⟨[0, 1, 2, 3, 4], [], [], 5⟩ 5000 (by decide)⟩

/-! ## Dashboard (`app.js`): data model and pure helpers -/

/-- A trace record as consumed by the dashboard.  All fields are
optional/nullable; JS numbers are embedded as `ℚ`, JS strings for the
content fields as `List Char` (a JS string is a sequence of code
units). -/
structure Trace where
  time : Option String
  model : Option String
  latency_ms : Option ℚ
  total_tokens : Option ℚ
  input_tokens : Option ℚ
  output_tokens : Option ℚ
  input_content : Option (List Char)
  output_content : Option (List Char)
deriving DecidableEq

/-- A trace with every field absent, convenience base for test values. -/
def emptyTrace : Trace := ⟨none, none, none, none, none, none, none, none⟩

/-- Constants from the top of `app.js`. -/
def ROWS_PER_PAGE : ℕ := 10

def PREVIEW_LENGTH : ℕ := 60

def MAX_LIMIT : ℤ := 200

def DEFAULT_LIMIT : ℤ := 50

/-- The JSON body of a `/api/traces` response, in the two shapes the
client accepts: a bare array, or an object whose optional `traces`
property holds the array (`none` covers an absent, `null` or `undefined`
property). -/
inductive ResponseBody where
  | arr (items : List Trace)
  | obj (traces : Option (List Trace))
deriving DecidableEq

/-- An HTTP response as seen by `fetchTraces`: its status code and parsed
JSON body. -/
structure HttpResponse where
  status : ℕ
  body : ResponseBody
deriving DecidableEq

/-- `res.ok` of the Fetch API: status in the success class 200..299. -/
def respOk (r : HttpResponse) : Bool := decide (200 ≤ r.status ∧ r.status ≤ 299)

/-- `fetchTraces(limit)` after the response has arrived: on a non-ok
status it throws `new Error` whose message carries the HTTP status; on an
ok status it returns the body if it is a bare array, else the body's
`traces` property, else `[]` (`data.traces || []`). -/
def fetchTraces (r : HttpResponse) : Except String (List Trace) :=
  if respOk r then
    .ok (match r.body with
      | .arr items => items
      | .obj traces => traces.getD [])
  else
    .error ("Failed to fetch traces: " ++ toString r.status)

/-- The three values `updateKpis` computes and writes to the KPI tiles. -/
structure Kpis where
  total : ℕ
  avgLatency : ℚ
  avgTokens : ℚ
deriving DecidableEq

/-- `updateKpis(items)`: count, and the two `reduce`-based running sums
divided by the count when it is non-zero (`total ? sum / total : 0`);
`x.latency_ms || 0` and `x.total_tokens || 0` read a missing field
as 0. -/
def updateKpis (items : List Trace) : Kpis :=
  let total := items.length
  let avgLatency : ℚ :=
    if total ≠ 0 then (items.foldl (fun sum x => sum + x.latency_ms.getD 0) 0) / total else 0
  let avgTokens : ℚ :=
    if total ≠ 0 then (items.foldl (fun sum x => sum + x.total_tokens.getD 0) 0) / total else 0
  ⟨total, avgLatency, avgTokens⟩

/-- The input/output cell text in `updateTable`: the first
`PREVIEW_LENGTH` code units of the content (`(content || '').slice(0,
PREVIEW_LENGTH)`), with `'...'` appended exactly when the preview is
shorter than the content (`preview.length < (content?.length || 0)`). -/
def contentPreviewCell (content : Option (List Char)) : List Char :=
  let preview := (content.getD []).take PREVIEW_LENGTH
  preview ++ (if preview.length < (content.getD []).length then ['.', '.', '.'] else [])

/-- What `updatePaginationControls` leaves in the DOM: whether the
controls carry the `hidden` class, and — when shown — the page-info text
and the two buttons' disabled flags (`none` when the function returned
before touching them). -/
structure PaginationView where
  hidden : Bool
  pageInfo : Option String
  prevDisabled : Option Bool
  nextDisabled : Option Bool
deriving DecidableEq

/-- `Math.ceil(totalItems / perPage)` on naturals (`perPage ≥ 1`). -/
def totalPagesOf (totalItems perPage : ℕ) : ℕ := (totalItems + perPage - 1) / perPage

/-- `updatePaginationControls(totalItems, page, perPage)`: hides the
controls and returns when `!totalItems || totalPages <= 1`; otherwise
shows them, writes `Page <page> of <totalPages>`, and sets
`prevPage.disabled = page <= 1`, `nextPage.disabled = page >=
totalPages`. -/
def updatePaginationControls (totalItems page perPage : ℕ) : PaginationView :=
  let totalPages := totalPagesOf totalItems perPage
  if totalItems = 0 ∨ totalPages ≤ 1 then
    ⟨true, none, none, none⟩
  else
    ⟨false,
     some ("Page " ++ toString page ++ " of " ++ toString totalPages),
     some (decide (page ≤ 1)),
     some (decide (totalPages ≤ page))⟩

/-- A day bucket built by `groupByDay`: the ISO date key and the three
accumulated fields. -/
structure DayBucket where
  date : String
  totalLatency : ℚ
  totalTokens : ℚ
  count : ℕ
deriving DecidableEq

/-- The `{ labels, data, label }` result of `buildSeriesByMetric`. -/
structure Series where
  labels : List String
  data : List ℚ
  label : String
deriving DecidableEq

/-- `buildSeriesByMetric(days, metric)`: labels are the bucket dates; the
data/label pair is selected by the metric identifier, any unrecognized
identifier yielding an empty data array and the generic label. -/
def buildSeriesByMetric (days : List DayBucket) (metric : String) : Series :=
  let labels := days.map (fun d => d.date)
  if metric = "avgLatency" then
    ⟨labels, days.map (fun d => if d.count ≠ 0 then d.totalLatency / d.count else 0),
     "Average latency (ms) per day"⟩
  else if metric = "totalCalls" then
    ⟨labels, days.map (fun d => (d.count : ℚ)), "Total calls per day"⟩
  else if metric = "totalTokens" then
    ⟨labels, days.map (fun d => d.totalTokens), "Total tokens per day"⟩
  else
    ⟨labels, [], "Unknown Metric"⟩

/-! ## Dashboard (`app.js`): the load action -/

/-- A decimal digit, for the `parseInt` model. -/
def isDecDigit (c : Char) : Bool := decide ('0' ≤ c ∧ c ≤ '9')

/-- Value of a digit string, most significant first. -/
def digitsToNat (ds : List Char) : ℕ :=
  ds.foldl (fun n c => 10 * n + (c.toNat - '0'.toNat)) 0

/-- `parseInt(string, 10)` of the host: skip leading whitespace, read an
optional sign, then the longest prefix of decimal digits; `none` stands
for `NaN` (no digits). -/
def parseIntTen (s : String) : Option ℤ :=
  let cs := s.toList.dropWhile (fun c => decide (c = ' ' ∨ c = '\t' ∨ c = '\n' ∨ c = '\r'))
  let signed : ℤ × List Char :=
    match cs with
    | '-' :: t => (-1, t)
    | '+' :: t => (1, t)
    | _ => (1, cs)
  let ds := signed.2.takeWhile isDecDigit
  if ds.isEmpty then none else some (signed.1 * digitsToNat ds)

/-- Lines 377-383 of `app.js`: parse the limit input and, when the parse
is `NaN` or the value lies outside `1..MAX_LIMIT`, fall back to
`DEFAULT_LIMIT`.  Returns the limit actually used and whether the
fallback (warning + write-back) was taken. -/
def validateLimit (v : String) : ℤ × Bool :=
  match parseIntTen v with
  | none => (DEFAULT_LIMIT, true)
  | some n => if n < 1 ∨ MAX_LIMIT < n then (DEFAULT_LIMIT, true) else (n, false)

/-- A toast raised through the global notification helpers. -/
inductive Notice where
  | warning (msg : String)
  | info (msg : String)
  | success (msg : String)
  | err (msg : String)
deriving DecidableEq

/-- The dashboard's module-level mutable state: `allItems`, `currentPage`,
`isLoading`. -/
structure DashState where
  allItems : List Trace
  currentPage : ℕ
  isLoading : Bool
deriving DecidableEq

/-- Everything one run of `onLoadClick` does: the state it leaves behind,
the notices it raised in order, whether it reached the fetch (and with
which limit), and the value it wrote back to the limit input, if any. -/
structure LoadOutcome where
  state : DashState
  notices : List Notice
  fetchIssued : Bool
  fetchLimit : Option ℤ
  limitWrittenBack : Option ℤ
deriving DecidableEq

/-- `onLoadClick()`, with the eventual HTTP response passed in as the
environment's answer to the single fetch.  While `isLoading` it warns and
returns at once.  Otherwise it validates the limit (warning and writing
back `DEFAULT_LIMIT` on fallback), sets `isLoading`, raises the info
notice, awaits `fetchTraces`, and on success replaces `allItems`, resets
`currentPage` to 1 and reports the count, while on error it reports the
error message and leaves the items and page untouched; the `finally`
block clears `isLoading` on both paths. -/
def onLoadClick (s : DashState) (limitValue : String) (response : HttpResponse) : LoadOutcome :=
  if s.isLoading then
    ⟨s, [.warning "Already loading..."], false, none, none⟩
  else
    let vl := validateLimit limitValue
    let preNotices : List Notice :=
      if vl.2 then [.warning ("Limit reset to " ++ toString DEFAULT_LIMIT)] else []
    let writtenBack : Option ℤ := if vl.2 then some DEFAULT_LIMIT else none
    match fetchTraces response with
    | .ok items =>
        ⟨⟨items, 1, false⟩,
         preNotices ++ [.info "Loading traces...",
                        .success ("Loaded " ++ toString items.length ++ " traces")],
         true, some vl.1, writtenBack⟩
    | .error msg =>
        ⟨⟨s.allItems, s.currentPage, false⟩,
         preNotices ++ [.info "Loading traces...", .err msg],
         true, some vl.1, writtenBack⟩

/-! ## Claims about the fetcher and the load guard -/

/-- C2.  In every state with the loading flag set, invoking the load
action again only raises the `Already loading...` warning: the state
(trace list, current page, loading flag) is returned unchanged, no fetch
is issued, and nothing is written back to the limit input. -/
theorem onLoadClick_while_loading_warns_only (s : DashState) (v : String) (r : HttpResponse)
    (h : s.isLoading = true) :
    onLoadClick s v r = ⟨s, [.warning "Already loading..."], false, none, none⟩ := by
  simp [onLoadClick, h]

/-- C2, witness at a concrete loading state. -/
theorem onLoadClick_while_loading_warns_only_witness :
    (⟨[emptyTrace], 2, true⟩ : DashState).isLoading = true ∧
    onLoadClick ⟨[emptyTrace], 2, true⟩ "50" ⟨200, .arr []⟩ =
      ⟨⟨[emptyTrace], 2, true⟩, [.warning "Already loading..."], false, none, none⟩ :=
  ⟨rfl, onLoadClick_while_loading_warns_only ⟨[emptyTrace], 2, true⟩ "50" ⟨200, .arr []⟩ rfl⟩

/-- C3.  For every response outside the success class `fetchTraces` fails
with the fetch error carrying the HTTP status; for every success-class
response it returns the trace list, whether the body is a bare array or
an object wrapping it under `traces`. -/
theorem fetchTraces_status_and_shapes (r : HttpResponse) :
    (¬ (200 ≤ r.status ∧ r.status ≤ 299) →
        fetchTraces r = .error ("Failed to fetch traces: " ++ toString r.status)) ∧
    ((200 ≤ r.status ∧ r.status ≤ 299) →
        (∀ items, r.body = .arr items → fetchTraces r = .ok items) ∧
        (∀ items, r.body = .obj (some items) → fetchTraces r = .ok items)) := by
  constructor
  · intro h
    simp [fetchTraces, respOk, h]
  · intro h
    refine ⟨fun items hb => ?_, fun items hb => ?_⟩ <;>
      simp [fetchTraces, respOk, h, hb]

/-- C3, witness: a 404 fails with the status in the error, a 200 bare
array and a 204 wrapped array both succeed. -/
theorem fetchTraces_status_and_shapes_witness :
    fetchTraces ⟨404, .arr []⟩ = .error ("Failed to fetch traces: " ++ toString (404 : ℕ)) ∧
    fetchTraces ⟨200, .arr [emptyTrace]⟩ = .ok [emptyTrace] ∧
    fetchTraces ⟨204, .obj (some [emptyTrace])⟩ = .ok [emptyTrace] :=
  ⟨(fetchTraces_status_and_shapes ⟨404, .arr []⟩).1 (by decide),
   ((fetchTraces_status_and_shapes ⟨200, .arr [emptyTrace]⟩).2 (by decide)).1 [emptyTrace] rfl,
   ((fetchTraces_status_and_shapes ⟨204, .obj (some [emptyTrace])⟩).2 (by decide)).2
     [emptyTrace] rfl⟩

/-- C10.  A success-class response whose body is an object without a
usable `traces` array makes `fetchTraces` succeed with the empty list
(`data.traces || []`). -/
theorem fetchTraces_object_without_traces (status : ℕ)
    (h1 : 200 ≤ status) (h2 : status ≤ 299) :
    fetchTraces ⟨status, .obj none⟩ = .ok [] := by
  simp [fetchTraces, respOk, h1, h2]

/-- C10, witness at status 200. -/
theorem fetchTraces_object_without_traces_witness :
    fetchTraces ⟨200, .obj none⟩ = .ok [] :=
  fetchTraces_object_without_traces 200 (by decide) (by decide)

/-! ## Claim about limit validation -/

theorem validateLimit_invalid (v : String)
    (h : parseIntTen v = none ∨ ∃ n, parseIntTen v = some n ∧ (n < 1 ∨ MAX_LIMIT < n)) :
    validateLimit v = (DEFAULT_LIMIT, true) := by
  rcases h with h | ⟨n, hn, hout⟩
  · simp [validateLimit, h]
  · simp [validateLimit, hn, hout]

theorem validateLimit_valid (v : String) (n : ℤ)
    (hn : parseIntTen v = some n) (h1 : 1 ≤ n) (h2 : n ≤ MAX_LIMIT) :
    validateLimit v = (n, false) := by
  have hout : ¬ (n < 1 ∨ MAX_LIMIT < n) := by omega
  simp [validateLimit, hn, hout]

theorem validateLimit_range (v : String) :
    1 ≤ (validateLimit v).1 ∧ (validateLimit v).1 ≤ MAX_LIMIT := by
  rcases hp : parseIntTen v with _ | n
  · simp [validateLimit, hp, DEFAULT_LIMIT, MAX_LIMIT]
  · by_cases hout : n < 1 ∨ MAX_LIMIT < n
    · have hout2 : n < 1 ∨ (200 : ℤ) < n := hout
      simp [validateLimit, hp, hout2, DEFAULT_LIMIT, MAX_LIMIT]
    · simp only [validateLimit, hp, if_neg hout]
      omega

theorem onLoadClick_not_loading_fetchLimit (s : DashState) (v : String) (r : HttpResponse)
    (h : s.isLoading = false) :
    (onLoadClick s v r).fetchLimit = some (validateLimit v).1 := by
  cases hf : fetchTraces r <;> simp [onLoadClick, h, hf]

theorem onLoadClick_not_loading_writeBack (s : DashState) (v : String) (r : HttpResponse)
    (h : s.isLoading = false) :
    (onLoadClick s v r).limitWrittenBack =
      (if (validateLimit v).2 then some DEFAULT_LIMIT else none) := by
  cases hf : fetchTraces r <;> simp [onLoadClick, h, hf]

theorem onLoadClick_warning_mem (s : DashState) (v : String) (r : HttpResponse)
    (h : s.isLoading = false) (m : String) :
    (Notice.warning m ∈ (onLoadClick s v r).notices ↔
      ((validateLimit v).2 = true ∧ m = "Limit reset to " ++ toString DEFAULT_LIMIT)) := by
  cases hf : fetchTraces r <;>
    cases hvl : (validateLimit v).2 <;>
      simp [onLoadClick, h, hf, hvl]

/-- C4.  When the load action runs (not already loading), an unparseable
or out-of-range limit input is replaced by `DEFAULT_LIMIT` (50), written
back to the input control, and surfaces the reset warning; a parsed value
within `1..MAX_LIMIT` (1..200) is used as is, with no write-back and no
warning notice at all; and whatever the input, the limit actually fetched
with lies in `1..MAX_LIMIT`. -/
theorem onLoadClick_limit_validation (s : DashState) (v : String) (r : HttpResponse)
    (h : s.isLoading = false) :
    ((parseIntTen v = none ∨ ∃ n, parseIntTen v = some n ∧ (n < 1 ∨ MAX_LIMIT < n)) →
        (onLoadClick s v r).fetchLimit = some DEFAULT_LIMIT ∧
        (onLoadClick s v r).limitWrittenBack = some DEFAULT_LIMIT ∧
        Notice.warning ("Limit reset to " ++ toString DEFAULT_LIMIT) ∈
          (onLoadClick s v r).notices) ∧
    (∀ n, parseIntTen v = some n → 1 ≤ n → n ≤ MAX_LIMIT →
        (onLoadClick s v r).fetchLimit = some n ∧
        (onLoadClick s v r).limitWrittenBack = none ∧
        ∀ m, Notice.warning m ∉ (onLoadClick s v r).notices) ∧
    (∀ L, (onLoadClick s v r).fetchLimit = some L → 1 ≤ L ∧ L ≤ MAX_LIMIT) := by
  refine ⟨fun hbad => ?_, fun n hn h1 h2 => ?_, fun L hL => ?_⟩
  · have hv := validateLimit_invalid v hbad
    refine ⟨?_, ?_, ?_⟩
    · rw [onLoadClick_not_loading_fetchLimit s v r h, hv]
    · rw [onLoadClick_not_loading_writeBack s v r h, hv]
      rfl
    · rw [onLoadClick_warning_mem s v r h]
      exact ⟨by rw [hv], rfl⟩
  · have hv := validateLimit_valid v n hn h1 h2
    refine ⟨?_, ?_, fun m hm => ?_⟩
    · rw [onLoadClick_not_loading_fetchLimit s v r h, hv]
    · rw [onLoadClick_not_loading_writeBack s v r h, hv]
      rfl
    · rw [onLoadClick_warning_mem s v r h] at hm
      rw [hv] at hm
      exact Bool.false_ne_true hm.1
  · rw [onLoadClick_not_loading_fetchLimit s v r h] at hL
    have := validateLimit_range v
    have hL1 : (validateLimit v).1 = L := by
      simpa using hL
    omega

/-- C4, witness on the spec's example inputs: `0`, `-5`, `abc`, `500` are
replaced by 50 with the warning; `1` and `200` pass through unchanged
with no warning. -/
theorem onLoadClick_limit_validation_witness :
    (onLoadClick ⟨[], 1, false⟩ "0" ⟨200, .arr []⟩).fetchLimit = some DEFAULT_LIMIT ∧
    (onLoadClick ⟨[], 1, false⟩ "-5" ⟨200, .arr []⟩).fetchLimit = some DEFAULT_LIMIT ∧
    (onLoadClick ⟨[], 1, false⟩ "abc" ⟨200, .arr []⟩).limitWrittenBack = some DEFAULT_LIMIT ∧
    Notice.warning ("Limit reset to " ++ toString DEFAULT_LIMIT) ∈
      (onLoadClick ⟨[], 1, false⟩ "500" ⟨200, .arr []⟩).notices ∧
    ((onLoadClick ⟨[], 1, false⟩ "1" ⟨200, .arr []⟩).fetchLimit = some 1 ∧
      ∀ m, Notice.warning m ∉ (onLoadClick ⟨[], 1, false⟩ "1" ⟨200, .arr []⟩).notices) ∧
    ((onLoadClick ⟨[], 1, false⟩ "200" ⟨200, .arr []⟩).fetchLimit = some 200 ∧
      (onLoadClick ⟨[], 1, false⟩ "200" ⟨200, .arr []⟩).limitWrittenBack = none) := by
  have h0 := onLoadClick_limit_validation ⟨[], 1, false⟩ "0" ⟨200, .arr []⟩ rfl
  have h5 := onLoadClick_limit_validation ⟨[], 1, false⟩ "-5" ⟨200, .arr []⟩ rfl
  have habc := onLoadClick_limit_validation ⟨[], 1, false⟩ "abc" ⟨200, .arr []⟩ rfl
  have h500 := onLoadClick_limit_validation ⟨[], 1, false⟩ "500" ⟨200, .arr []⟩ rfl
  have h1 := onLoadClick_limit_validation ⟨[], 1, false⟩ "1" ⟨200, .arr []⟩ rfl
  have h200 := onLoadClick_limit_validation ⟨[], 1, false⟩ "200" ⟨200, .arr []⟩ rfl
  refine ⟨(h0.1 (Or.inr ⟨0, by decide, Or.inl (by decide)⟩)).1,
          (h5.1 (Or.inr ⟨-5, by decide, Or.inl (by decide)⟩)).1,
          (habc.1 (Or.inl (by decide))).2.1,
          (h500.1 (Or.inr ⟨500, by decide, Or.inr (by decide)⟩)).2.2,
          ⟨(h1.2.1 1 (by decide) (by decide) (by decide)).1,
           (h1.2.1 1 (by decide) (by decide) (by decide)).2.2⟩,
          ⟨(h200.2.1 200 (by decide) (by decide) (by decide)).1,
           (h200.2.1 200 (by decide) (by decide) (by decide)).2.1⟩⟩

/-! ## Claims about KPIs, pagination, previews and metric series -/

theorem foldl_add_map_sum (f : Trace → ℚ) (items : List Trace) (a : ℚ) :
    items.foldl (fun sum x => sum + f x) a = a + (items.map f).sum := by
  induction items generalizing a with
  | nil => simp
  | cons x t ih => simp [ih, add_assoc]

/-- C5.  `updateKpis` reports the record count; on a non-empty list the
two averages are the sums of (`|| 0`-defaulted) latencies and token
totals divided by the count, and on the empty list both are 0. -/
theorem updateKpis_means (items : List Trace) :
    (updateKpis items).total = items.length ∧
    (items ≠ [] →
      (updateKpis items).avgLatency =
        ((items.map (fun x => x.latency_ms.getD 0)).sum) / (items.length : ℚ) ∧
      (updateKpis items).avgTokens =
        ((items.map (fun x => x.total_tokens.getD 0)).sum) / (items.length : ℚ)) ∧
    (items = [] → (updateKpis items).avgLatency = 0 ∧ (updateKpis items).avgTokens = 0) := by
  refine ⟨rfl, fun h => ?_, fun h => ?_⟩
  · have hl : items.length ≠ 0 := fun hh => h (List.length_eq_zero.mp hh)
    constructor <;> simp [updateKpis, hl, foldl_add_map_sum]
  · subst h
    simp [updateKpis]

/-- C5, witness on the spec's example record (latency 120, tokens 50). -/
theorem updateKpis_means_witness :
    [{ emptyTrace with latency_ms := some 120, total_tokens := some 50 }] ≠ ([] : List Trace) ∧
    ((updateKpis [{ emptyTrace with latency_ms := some 120, total_tokens := some 50 }]).avgLatency =
        (([{ emptyTrace with latency_ms := some 120, total_tokens := some 50 }].map
            (fun x => x.latency_ms.getD 0)).sum) /
          (([{ emptyTrace with latency_ms := some 120, total_tokens := some 50 }] :
              List Trace).length : ℚ) ∧
      (updateKpis [{ emptyTrace with latency_ms := some 120, total_tokens := some 50 }]).avgTokens =
        (([{ emptyTrace with latency_ms := some 120, total_tokens := some 50 }].map
            (fun x => x.total_tokens.getD 0)).sum) /
          (([{ emptyTrace with latency_ms := some 120, total_tokens := some 50 }] :
              List Trace).length : ℚ)) :=
  ⟨by decide,
   (updateKpis_means [{ emptyTrace with latency_ms := some 120, total_tokens := some 50 }]).2.1
     (by decide)⟩

/-- C7, counterexample.  The claim's "disabled iff page equals the
boundary" fails off the 1-based page range: at page 0 of 3 pages the
previous button is disabled although the page is not 1, and at page 5 of
3 pages the next button is disabled although the page is not the last
page.  (The code disables on `page <= 1` and `page >= totalPages`.) -/
theorem updatePaginationControls_iff_cex :
    ¬ (((updatePaginationControls 30 0 10).prevDisabled = some true) ↔ (0 : ℕ) = 1) ∧
    ¬ (((updatePaginationControls 30 5 10).nextDisabled = some true) ↔
        (5 : ℕ) = totalPagesOf 30 10) := by
  decide

/-- C7, amended.  For a positive page size: the controls are hidden
exactly when the total page count is at most 1; otherwise they are shown
with the `Page X of Y` text, the previous button is disabled exactly when
`page ≤ 1` and the next exactly when `page ≥ totalPages` — which, for a
page within the 1-based range, is exactly `page = 1` resp.
`page = totalPages` as the claim states. -/
theorem updatePaginationControls_spec (totalItems page perPage : ℕ) (hpp : 1 ≤ perPage) :
    ((updatePaginationControls totalItems page perPage).hidden = true ↔
        totalPagesOf totalItems perPage ≤ 1) ∧
    (1 < totalPagesOf totalItems perPage →
        (updatePaginationControls totalItems page perPage).hidden = false ∧
        (updatePaginationControls totalItems page perPage).pageInfo =
          some ("Page " ++ toString page ++ " of " ++
            toString (totalPagesOf totalItems perPage)) ∧
        (updatePaginationControls totalItems page perPage).prevDisabled =
          some (decide (page ≤ 1)) ∧
        (updatePaginationControls totalItems page perPage).nextDisabled =
          some (decide (totalPagesOf totalItems perPage ≤ page)) ∧
        (1 ≤ page →
          ((updatePaginationControls totalItems page perPage).prevDisabled = some true ↔
            page = 1)) ∧
        (page ≤ totalPagesOf totalItems perPage →
          ((updatePaginationControls totalItems page perPage).nextDisabled = some true ↔
            page = totalPagesOf totalItems perPage))) := by
  have hzero : totalItems = 0 → totalPagesOf totalItems perPage ≤ 1 := by
    intro h0
    subst h0
    have hlt : perPage - 1 < perPage := by omega
    simp [totalPagesOf, Nat.div_eq_of_lt hlt]
  by_cases hc : totalItems = 0 ∨ totalPagesOf totalItems perPage ≤ 1
  · have hle : totalPagesOf totalItems perPage ≤ 1 := by
      rcases hc with h0 | hle
      · exact hzero h0
      · exact hle
    refine ⟨by simp [updatePaginationControls, hc, hle], fun hgt => absurd hle (by omega)⟩
  · have hne : totalItems ≠ 0 := fun h0 => hc (Or.inl h0)
    have hgt : ¬ totalPagesOf totalItems perPage ≤ 1 := fun hle => hc (Or.inr hle)
    have hs : updatePaginationControls totalItems page perPage =
        ⟨false,
         some ("Page " ++ toString page ++ " of " ++ toString (totalPagesOf totalItems perPage)),
         some (decide (page ≤ 1)),
         some (decide (totalPagesOf totalItems perPage ≤ page))⟩ := by
      simp [updatePaginationControls, hne, hgt]
    refine ⟨by rw [hs]; simp [hgt], fun _ => ?_⟩
    refine ⟨by rw [hs], by rw [hs], by rw [hs], by rw [hs], fun h1 => ?_, fun h2 => ?_⟩
    · rw [hs]
      simp only [Option.some_inj, decide_eq_true_eq]
      omega
    · rw [hs]
      simp only [Option.some_inj, decide_eq_true_eq]
      omega

/-- C7, witness for the amended theorem at 30 items, page 2, page
size 10. -/
theorem updatePaginationControls_spec_witness :
    (1 : ℕ) ≤ 10 ∧
    (((updatePaginationControls 30 2 10).hidden = true ↔ totalPagesOf 30 10 ≤ 1) ∧
     (1 < totalPagesOf 30 10 →
        (updatePaginationControls 30 2 10).hidden = false ∧
        (updatePaginationControls 30 2 10).pageInfo =
          some ("Page " ++ toString (2 : ℕ) ++ " of " ++ toString (totalPagesOf 30 10)) ∧
        (updatePaginationControls 30 2 10).prevDisabled = some (decide ((2 : ℕ) ≤ 1)) ∧
        (updatePaginationControls 30 2 10).nextDisabled =
          some (decide (totalPagesOf 30 10 ≤ 2)) ∧
        (1 ≤ (2 : ℕ) →
          ((updatePaginationControls 30 2 10).prevDisabled = some true ↔ (2 : ℕ) = 1)) ∧
        ((2 : ℕ) ≤ totalPagesOf 30 10 →
          ((updatePaginationControls 30 2 10).nextDisabled = some true ↔
            (2 : ℕ) = totalPagesOf 30 10)))) :=
  ⟨by decide, updatePaginationControls_spec 30 2 10 (by decide)⟩

/-- C8.  A content string longer than `PREVIEW_LENGTH` (60) renders as
exactly its first 60 code units followed by the three-dot ellipsis; a
string of at most 60 renders as itself with nothing appended. -/
theorem contentPreview_truncation (s : List Char) :
    (PREVIEW_LENGTH < s.length →
        contentPreviewCell (some s) = s.take PREVIEW_LENGTH ++ ['.', '.', '.'] ∧
        (s.take PREVIEW_LENGTH).length = PREVIEW_LENGTH) ∧
    (s.length ≤ PREVIEW_LENGTH → contentPreviewCell (some s) = s) := by
  constructor
  · intro h
    have hlen : (s.take PREVIEW_LENGTH).length = PREVIEW_LENGTH := by
      rw [List.length_take]
      exact Nat.min_eq_left (Nat.le_of_lt h)
    have hlt : (s.take PREVIEW_LENGTH).length < s.length := by omega
    refine ⟨?_, hlen⟩
    simp only [contentPreviewCell, Option.getD_some]
    rw [if_pos hlt]
  · intro h
    have ht : s.take PREVIEW_LENGTH = s := List.take_of_length_le h
    simp only [contentPreviewCell, Option.getD_some, ht, lt_self_iff_false, if_false,
      List.append_nil]

/-- C8, witness on a 61-character string and a 1-character string. -/
theorem contentPreview_truncation_witness :
    (PREVIEW_LENGTH < (List.replicate 61 'a').length ∧
      contentPreviewCell (some (List.replicate 61 'a')) =
        (List.replicate 61 'a').take PREVIEW_LENGTH ++ ['.', '.', '.'] ∧
      ((List.replicate 61 'a').take PREVIEW_LENGTH).length = PREVIEW_LENGTH) ∧
    (['a'].length ≤ PREVIEW_LENGTH ∧ contentPreviewCell (some ['a']) = ['a']) :=
  ⟨⟨by decide, (contentPreview_truncation (List.replicate 61 'a')).1 (by decide)⟩,
   ⟨by decide, (contentPreview_truncation ['a']).2 (by decide)⟩⟩

/-- C9.  Any metric identifier other than the three recognized ones
yields an empty data series labeled `Unknown Metric` (the function is
total, so no error can be raised). -/
theorem buildSeriesByMetric_unknown (days : List DayBucket) (metric : String)
    (h1 : metric ≠ "avgLatency") (h2 : metric ≠ "totalCalls") (h3 : metric ≠ "totalTokens") :
    (buildSeriesByMetric days metric).data = [] ∧
    (buildSeriesByMetric days metric).label = "Unknown Metric" := by
  simp [buildSeriesByMetric, h1, h2, h3]

/-- C9, witness at an unrecognized identifier over a non-empty bucket
list. -/
theorem buildSeriesByMetric_unknown_witness :
    (buildSeriesByMetric [⟨"2024-01-01", 120, 50, 1⟩] "bogus").data = [] ∧
    (buildSeriesByMetric [⟨"2024-01-01", 120, 50, 1⟩] "bogus").label = "Unknown Metric" :=
  buildSeriesByMetric_unknown [⟨"2024-01-01", 120, 50, 1⟩] "bogus"
    (by decide) (by decide) (by decide)

/-! ## `groupByDay` (`app.js` lines 156-178)

The JS dictionary `byDay` becomes an insertion-ordered association list.
`parseDay` stands for the host expression
`new Date(t).toISOString().slice(0, 10)` — the UTC calendar-day
truncation of the timestamp — returning `none` when `toISOString`
throws on an invalid date (the `catch` branch, which skips the
record). -/

/-- The per-record guard of `groupByDay`: `!x.time` skips an absent or
empty timestamp, and an unparseable one yields `none` through
`parseDay`. -/
def dayKey (parseDay : String → Option String) (x : Trace) : Option String :=
  match x.time with
  | none => none
  | some t => if t = "" then none else parseDay t

/-- The three `+=` statements of `groupByDay`'s loop body. -/
def addToBucket (b : DayBucket) (x : Trace) : DayBucket :=
  { b with
      totalLatency := b.totalLatency + x.latency_ms.getD 0,
      totalTokens := b.totalTokens + x.total_tokens.getD 0,
      count := b.count + 1 }

/-- `if (!byDay[key]) byDay[key] = {...zeros}` followed by the `+=`
statements, on the association-list embedding of the JS object: update
the first entry with this key in place, or append a fresh bucket. -/
def updateByDay (byDay : List (String × DayBucket)) (key : String) (x : Trace) :
    List (String × DayBucket) :=
  match byDay with
  | [] => [(key, addToBucket ⟨key, 0, 0, 0⟩ x)]
  | (k, b) :: rest =>
      if k = key then (k, addToBucket b x) :: rest else (k, b) :: updateByDay rest key x

/-- One iteration of `items.forEach` in `groupByDay`. -/
def insertByDay (parseDay : String → Option String) (byDay : List (String × DayBucket))
    (x : Trace) : List (String × DayBucket) :=
  match dayKey parseDay x with
  | none => byDay
  | some key => updateByDay byDay key x

/-- The `byDay` object after the whole `forEach`. -/
def buildByDay (parseDay : String → Option String) (items : List Trace) :
    List (String × DayBucket) :=
  items.foldl (insertByDay parseDay) []

/-- `groupByDay(items)`: `Object.values(byDay)` (insertion order), then
`.sort((a, b) => a.date.localeCompare(b.date))` — an ascending stable
sort by the date string. -/
def groupByDay (parseDay : String → Option String) (items : List Trace) : List DayBucket :=
  ((buildByDay parseDay items).map Prod.snd).mergeSort (fun a b => decide (a.date ≤ b.date))

/-- The records a given day bucket should aggregate: those whose
timestamp parses to that day. -/
def tracesOnDay (parseDay : String → Option String) (items : List Trace) (d : String) :
    List Trace :=
  items.filter (fun x => decide (dayKey parseDay x = some d))

/-- Dictionary lookup on the association-list embedding. -/
def findBucket (byDay : List (String × DayBucket)) (key : String) : Option DayBucket :=
  match byDay with
  | [] => none
  | (k, b) :: rest => if k = key then some b else findBucket rest key

/-- Folding a list of records into one bucket. -/
def accBucket (b : DayBucket) (l : List Trace) : DayBucket := l.foldl addToBucket b

theorem accBucket_date (l : List Trace) (b : DayBucket) : (accBucket b l).date = b.date := by
  induction l generalizing b with
  | nil => rfl
  | cons x t ih => simpa [accBucket, addToBucket] using ih (addToBucket b x)

theorem accBucket_count (l : List Trace) (b : DayBucket) :
    (accBucket b l).count = b.count + l.length := by
  induction l generalizing b with
  | nil => rfl
  | cons x t ih =>
    have h1 : accBucket b (x :: t) = accBucket (addToBucket b x) t := rfl
    rw [h1, ih (addToBucket b x)]
    simp only [addToBucket, List.length_cons]
    omega

theorem accBucket_latency (l : List Trace) (b : DayBucket) :
    (accBucket b l).totalLatency = b.totalLatency + (l.map (fun x => x.latency_ms.getD 0)).sum := by
  induction l generalizing b with
  | nil => simp [accBucket]
  | cons x t ih =>
    have h1 : accBucket b (x :: t) = accBucket (addToBucket b x) t := rfl
    rw [h1, ih (addToBucket b x)]
    simp only [addToBucket, List.map_cons, List.sum_cons]
    ring

theorem accBucket_tokens (l : List Trace) (b : DayBucket) :
    (accBucket b l).totalTokens = b.totalTokens + (l.map (fun x => x.total_tokens.getD 0)).sum := by
  induction l generalizing b with
  | nil => simp [accBucket]
  | cons x t ih =>
    have h1 : accBucket b (x :: t) = accBucket (addToBucket b x) t := rfl
    rw [h1, ih (addToBucket b x)]
    simp only [addToBucket, List.map_cons, List.sum_cons]
    ring

theorem findBucket_updateByDay_self (A : List (String × DayBucket)) (key : String) (x : Trace) :
    findBucket (updateByDay A key x) key =
      some (addToBucket ((findBucket A key).getD ⟨key, 0, 0, 0⟩) x) := by
  induction A with
  | nil => simp [updateByDay, findBucket]
  | cons q rest ih =>
    obtain ⟨k, b⟩ := q
    by_cases hk : k = key
    · subst hk
      simp [updateByDay, findBucket]
    · simp [updateByDay, findBucket, hk, ih]

theorem findBucket_updateByDay_other (A : List (String × DayBucket)) (key key' : String)
    (x : Trace) (hne : key' ≠ key) :
    findBucket (updateByDay A key x) key' = findBucket A key' := by
  have hne2 : ¬ key = key' := fun h => hne h.symm
  induction A with
  | nil => simp [updateByDay, findBucket, hne2]
  | cons q rest ih =>
    obtain ⟨k, b⟩ := q
    by_cases hk : k = key
    · subst hk
      simp [updateByDay, findBucket, hne2]
    · simp [updateByDay, findBucket, hk, ih]

/-- The value `optAcc o key l` a key's final bucket must have after
folding `l` (the records matching the key) on top of its previous state
`o`. -/
def optAcc (o : Option DayBucket) (key : String) (l : List Trace) : Option DayBucket :=
  match o, l with
  | none, [] => none
  | none, l => some (accBucket ⟨key, 0, 0, 0⟩ l)
  | some b, l => some (accBucket b l)

theorem optAcc_some (b : DayBucket) (key : String) (l : List Trace) :
    optAcc (some b) key l = some (accBucket b l) := rfl

theorem optAcc_cons (o : Option DayBucket) (key : String) (x : Trace) (l : List Trace) :
    optAcc o key (x :: l) = some (accBucket (o.getD ⟨key, 0, 0, 0⟩) (x :: l)) := by
  cases o <;> rfl

theorem findBucket_foldl (p : String → Option String) (items : List Trace)
    (A : List (String × DayBucket)) (key : String) :
    findBucket (items.foldl (insertByDay p) A) key =
      optAcc (findBucket A key) key (tracesOnDay p items key) := by
  induction items generalizing A with
  | nil =>
    cases h : findBucket A key <;> simp [tracesOnDay, optAcc, h, accBucket]
  | cons x t ih =>
    rw [List.foldl_cons, ih (insertByDay p A x)]
    cases hk : dayKey p x with
    | none =>
      have hA : insertByDay p A x = A := by simp [insertByDay, hk]
      have hf : tracesOnDay p (x :: t) key = tracesOnDay p t key := by
        simp [tracesOnDay, List.filter_cons, hk]
      rw [hA, hf]
    | some k =>
      have hA : insertByDay p A x = updateByDay A k x := by simp [insertByDay, hk]
      by_cases hkey : k = key
      · subst hkey
        have hf : tracesOnDay p (x :: t) k = x :: tracesOnDay p t k := by
          simp [tracesOnDay, List.filter_cons, hk]
        rw [hA, hf, findBucket_updateByDay_self, optAcc_some, optAcc_cons]
        rfl
      · have hf : tracesOnDay p (x :: t) key = tracesOnDay p t key := by
          simp [tracesOnDay, List.filter_cons, hk, hkey]
        rw [hA, hf, findBucket_updateByDay_other A k key x (fun h => hkey h.symm)]

theorem findBucket_buildByDay (p : String → Option String) (items : List Trace) (key : String) :
    findBucket (buildByDay p items) key = optAcc none key (tracesOnDay p items key) := by
  rw [buildByDay, findBucket_foldl]
  rfl

theorem updateByDay_dates (A : List (String × DayBucket)) (key : String) (x : Trace)
    (hA : ∀ q ∈ A, (q : String × DayBucket).2.date = q.1) :
    ∀ q ∈ updateByDay A key x, q.2.date = q.1 := by
  induction A with
  | nil =>
    intro q hq
    simp only [updateByDay, List.mem_singleton] at hq
    subst hq
    rfl
  | cons e rest ih =>
    obtain ⟨k, b⟩ := e
    intro q hq
    by_cases hk : k = key
    · subst hk
      have hupd : updateByDay ((k, b) :: rest) k x = (k, addToBucket b x) :: rest := by
        simp [updateByDay]
      rw [hupd] at hq
      rcases List.mem_cons.mp hq with hq1 | hq1
      · subst hq1
        have hb : b.date = k := hA (k, b) (List.mem_cons_self _ _)
        simpa [addToBucket] using hb
      · exact hA q (List.mem_cons_of_mem _ hq1)
    · have hupd : updateByDay ((k, b) :: rest) key x = (k, b) :: updateByDay rest key x := by
        simp [updateByDay, hk]
      rw [hupd] at hq
      rcases List.mem_cons.mp hq with hq1 | hq1
      · subst hq1
        exact hA (k, b) (List.mem_cons_self _ _)
      · exact ih (fun q' hq' => hA q' (List.mem_cons_of_mem _ hq')) q hq1

theorem insertByDay_dates (p : String → Option String) (A : List (String × DayBucket)) (x : Trace)
    (hA : ∀ q ∈ A, (q : String × DayBucket).2.date = q.1) :
    ∀ q ∈ insertByDay p A x, q.2.date = q.1 := by
  cases hk : dayKey p x with
  | none => simpa [insertByDay, hk] using hA
  | some k =>
    intro q hq
    simp only [insertByDay, hk] at hq
    exact updateByDay_dates A k x hA q hq

theorem buildByDay_dates (p : String → Option String) (items : List Trace) :
    ∀ q ∈ buildByDay p items, (q : String × DayBucket).2.date = q.1 := by
  have hgen : ∀ A, (∀ q ∈ A, (q : String × DayBucket).2.date = q.1) →
      ∀ q ∈ items.foldl (insertByDay p) A, q.2.date = q.1 := by
    induction items with
    | nil => intro A hA; simpa using hA
    | cons x t ih =>
      intro A hA
      rw [List.foldl_cons]
      exact ih _ (insertByDay_dates p A x hA)
  exact hgen [] (by simp)

theorem updateByDay_keys (A : List (String × DayBucket)) (key : String) (x : Trace) :
    (updateByDay A key x).map Prod.fst =
      if key ∈ A.map Prod.fst then A.map Prod.fst else A.map Prod.fst ++ [key] := by
  induction A with
  | nil => simp [updateByDay]
  | cons e rest ih =>
    obtain ⟨k, b⟩ := e
    by_cases hk : k = key
    · subst hk
      simp [updateByDay]
    · have hne : ¬ key = k := fun h => hk h.symm
      by_cases hmem : key ∈ rest.map Prod.fst
      · simp [updateByDay, hk, ih, hmem, hne]
      · simp [updateByDay, hk, ih, hmem, hne]

theorem updateByDay_keys_nodup (A : List (String × DayBucket)) (key : String) (x : Trace)
    (hA : (A.map Prod.fst).Nodup) : ((updateByDay A key x).map Prod.fst).Nodup := by
  rw [updateByDay_keys]
  by_cases hmem : key ∈ A.map Prod.fst
  · simpa [hmem] using hA
  · simp only [if_neg hmem]
    rw [List.nodup_append]
    exact ⟨hA, List.nodup_singleton key, by simpa [List.disjoint_singleton] using hmem⟩

theorem insertByDay_keys_nodup (p : String → Option String) (A : List (String × DayBucket))
    (x : Trace) (hA : (A.map Prod.fst).Nodup) :
    ((insertByDay p A x).map Prod.fst).Nodup := by
  cases hk : dayKey p x with
  | none => simpa [insertByDay, hk] using hA
  | some k =>
    simp only [insertByDay, hk]
    exact updateByDay_keys_nodup A k x hA

theorem buildByDay_keys_nodup (p : String → Option String) (items : List Trace) :
    ((buildByDay p items).map Prod.fst).Nodup := by
  have hgen : ∀ A, (A.map Prod.fst).Nodup →
      (((items.foldl (insertByDay p) A)).map Prod.fst).Nodup := by
    induction items with
    | nil => intro A hA; simpa using hA
    | cons x t ih =>
      intro A hA
      rw [List.foldl_cons]
      exact ih _ (insertByDay_keys_nodup p A x hA)
  exact hgen [] (by simp)

theorem findBucket_of_mem (A : List (String × DayBucket)) (k : String) (b : DayBucket)
    (hnd : (A.map Prod.fst).Nodup) (hmem : (k, b) ∈ A) :
    findBucket A k = some b := by
  induction A with
  | nil => simp at hmem
  | cons e rest ih =>
    obtain ⟨k', b'⟩ := e
    have hnd' : k' ∉ rest.map Prod.fst ∧ (rest.map Prod.fst).Nodup := by
      rw [List.map_cons, List.nodup_cons] at hnd
      exact hnd
    rcases List.mem_cons.mp hmem with he | hm
    · cases he
      simp [findBucket]
    · have hk' : ¬ k' = k := by
        intro h
        subst h
        exact hnd'.1 (by simpa using List.mem_map_of_mem Prod.fst hm)
      simp only [findBucket, if_neg hk']
      exact ih hnd'.2 hm

theorem groupByDay_sorted (p : String → Option String) (items : List Trace) :
    List.Pairwise (fun a b : DayBucket => a.date ≤ b.date) (groupByDay p items) := by
  have htrans : ∀ (a b c : DayBucket), (decide (a.date ≤ b.date)) = true →
      (decide (b.date ≤ c.date)) = true → (decide (a.date ≤ c.date)) = true := by
    intro a b c hab hbc
    rw [decide_eq_true_eq] at hab hbc ⊢
    exact le_trans hab hbc
  have htotal : ∀ (a b : DayBucket),
      ((decide (a.date ≤ b.date)) || (decide (b.date ≤ a.date))) = true := by
    intro a b
    rcases le_total a.date b.date with h | h <;> simp [h]
  have hs := List.sorted_mergeSort htrans htotal ((buildByDay p items).map Prod.snd)
  exact hs.imp (fun hab => decide_eq_true_eq.mp hab)

theorem mem_of_findBucket (A : List (String × DayBucket)) (k : String) (b : DayBucket)
    (h : findBucket A k = some b) : b ∈ A.map Prod.snd := by
  induction A with
  | nil => simp [findBucket] at h
  | cons e rest ih =>
    obtain ⟨k', b'⟩ := e
    simp only [findBucket] at h
    by_cases hk : k' = k
    · rw [if_pos hk] at h
      have hb := Option.some.inj h
      subst hb
      rw [List.map_cons]
      exact List.mem_cons_self _ _
    · rw [if_neg hk] at h
      rw [List.map_cons]
      exact List.mem_cons_of_mem _ (ih h)

/-- C6.  `groupByDay` output is sorted ascending by date string; every
bucket in it aggregates exactly the records whose timestamp parses to its
date — its count is their number and its latency/token totals are their
(`|| 0`-defaulted) sums — and each bucket's date is the day of at least
one record; conversely every record with a parseable timestamp makes its
day appear among the output buckets (no day is dropped); a record with a
missing or unparseable timestamp matches no day and is therefore excluded
from every bucket's aggregate. -/
theorem groupByDay_spec (p : String → Option String) (items : List Trace) :
    List.Pairwise (fun a b : DayBucket => a.date ≤ b.date) (groupByDay p items) ∧
    (∀ b ∈ groupByDay p items,
      (∃ x ∈ items, dayKey p x = some b.date) ∧
      b.count = (tracesOnDay p items b.date).length ∧
      b.totalLatency = ((tracesOnDay p items b.date).map (fun x => x.latency_ms.getD 0)).sum ∧
      b.totalTokens = ((tracesOnDay p items b.date).map (fun x => x.total_tokens.getD 0)).sum) ∧
    (∀ x ∈ items, ∀ d : String, dayKey p x = some d →
      ∃ b ∈ groupByDay p items, b.date = d) ∧
    (∀ x ∈ items, dayKey p x = none → ∀ d : String, x ∉ tracesOnDay p items d) := by
  refine ⟨groupByDay_sorted p items, fun b hb => ?_, fun x hx d hd => ?_,
          fun x hx hnone d hmem => ?_⟩
  · have hb' : b ∈ (buildByDay p items).map Prod.snd :=
      (List.mergeSort_perm ((buildByDay p items).map Prod.snd)
        (fun a b => decide (a.date ≤ b.date))).mem_iff.mp hb
    obtain ⟨q, hqmem, hq⟩ := List.mem_map.mp hb'
    have hdate : q.2.date = q.1 := buildByDay_dates p items q hqmem
    have hkey : q.1 = b.date := by rw [← hdate, hq]
    have hfind : findBucket (buildByDay p items) b.date = some b := by
      rw [← hkey, ← hq]
      refine findBucket_of_mem _ q.1 q.2 (buildByDay_keys_nodup p items) ?_
      rw [Prod.mk.eta]
      exact hqmem
    rw [findBucket_buildByDay] at hfind
    cases hT : tracesOnDay p items b.date with
    | nil =>
      rw [hT] at hfind
      simp [optAcc] at hfind
    | cons y l =>
      rw [hT] at hfind
      have hacc : accBucket ⟨b.date, 0, 0, 0⟩ (y :: l) = b := by
        have hoa : optAcc none b.date (y :: l) = some (accBucket ⟨b.date, 0, 0, 0⟩ (y :: l)) := rfl
        rw [hoa] at hfind
        exact Option.some.inj hfind
      refine ⟨?_, ?_, ?_, ?_⟩
      · have hy : y ∈ tracesOnDay p items b.date := by
          rw [hT]
          exact List.mem_cons_self _ _
        have hf := List.mem_filter.mp hy
        exact ⟨y, hf.1, of_decide_eq_true hf.2⟩
      · have hc := congrArg DayBucket.count hacc
        rw [accBucket_count] at hc
        simpa using hc.symm
      · have hc := congrArg DayBucket.totalLatency hacc
        rw [accBucket_latency] at hc
        simpa using hc.symm
      · have hc := congrArg DayBucket.totalTokens hacc
        rw [accBucket_tokens] at hc
        simpa using hc.symm
  · have hxT : x ∈ tracesOnDay p items d := by
      rw [tracesOnDay, List.mem_filter]
      exact ⟨hx, decide_eq_true hd⟩
    have hfind := findBucket_buildByDay p items d
    cases hT : tracesOnDay p items d with
    | nil =>
      rw [hT] at hxT
      exact absurd hxT (List.not_mem_nil x)
    | cons y l =>
      rw [hT] at hfind
      have hoa : optAcc none d (y :: l) = some (accBucket ⟨d, 0, 0, 0⟩ (y :: l)) := rfl
      rw [hoa] at hfind
      have hmm : accBucket ⟨d, 0, 0, 0⟩ (y :: l) ∈ (buildByDay p items).map Prod.snd :=
        mem_of_findBucket _ d _ hfind
      exact ⟨accBucket ⟨d, 0, 0, 0⟩ (y :: l),
        (List.mergeSort_perm ((buildByDay p items).map Prod.snd)
          (fun a b => decide (a.date ≤ b.date))).mem_iff.mpr hmm,
        accBucket_date (y :: l) ⟨d, 0, 0, 0⟩⟩
  · have h2 := of_decide_eq_true (List.mem_filter.mp hmem).2
    rw [hnone] at h2
    exact Option.noConfusion h2

/-- The day-truncation oracle used in the C6 witness: the UTC day of the
two timestamps it recognizes, `none` (a `Date` parse failure) for
everything else. -/
def pdWitness : String → Option String := fun t =>
  if t = "2024-01-02T00:00:00Z" then some "2024-01-02"
  else if t = "2024-01-01T10:00:00Z" then some "2024-01-01"
  else none

/-- Records for the C6 witness: two parseable timestamps on different
days (out of date order) and one unparseable timestamp. -/
def itemsWitness : List Trace :=
  [{ emptyTrace with time := some "2024-01-02T00:00:00Z", latency_ms := some 200,
                     total_tokens := some 30 },
   { emptyTrace with time := some "2024-01-01T10:00:00Z", latency_ms := some 120,
                     total_tokens := some 50 },
   { emptyTrace with time := some "not-a-date" }]

/-- C6, witness: the `2024-01-01` bucket is in the output and aggregates
exactly its single record, the `2024-01-01` record's parseable day does
yield a bucket with that date, and the unparseable record is excluded
from every bucket's aggregate. -/
theorem groupByDay_spec_witness :
    ((⟨"2024-01-01", 120, 50, 1⟩ : DayBucket) ∈ groupByDay pdWitness itemsWitness ∧
      ((∃ x ∈ itemsWitness, dayKey pdWitness x = some "2024-01-01") ∧
       1 = (tracesOnDay pdWitness itemsWitness "2024-01-01").length ∧
       (120 : ℚ) = ((tracesOnDay pdWitness itemsWitness "2024-01-01").map
           (fun x => x.latency_ms.getD 0)).sum ∧
       (50 : ℚ) = ((tracesOnDay pdWitness itemsWitness "2024-01-01").map
           (fun x => x.total_tokens.getD 0)).sum)) ∧
    (({ emptyTrace with time := some "2024-01-01T10:00:00Z", latency_ms := some 120,
                        total_tokens := some 50 } : Trace) ∈ itemsWitness ∧
      dayKey pdWitness { emptyTrace with time := some "2024-01-01T10:00:00Z",
                                         latency_ms := some 120,
                                         total_tokens := some 50 } = some "2024-01-01" ∧
      ∃ b ∈ groupByDay pdWitness itemsWitness, b.date = "2024-01-01") ∧
    (({ emptyTrace with time := some "not-a-date" } : Trace) ∈ itemsWitness ∧
      dayKey pdWitness { emptyTrace with time := some "not-a-date" } = none ∧
      ∀ d : String, ({ emptyTrace with time := some "not-a-date" } : Trace) ∉
        tracesOnDay pdWitness itemsWitness d) := by
  have hbuild : buildByDay pdWitness itemsWitness =
      [("2024-01-02", ⟨"2024-01-02", 200, 30, 1⟩),
       ("2024-01-01", ⟨"2024-01-01", 120, 50, 1⟩)] := by
    simp [buildByDay, itemsWitness, insertByDay, dayKey, pdWitness, updateByDay, addToBucket,
      emptyTrace]
  have hmemB : (⟨"2024-01-01", 120, 50, 1⟩ : DayBucket) ∈ groupByDay pdWitness itemsWitness := by
    have h1 : (⟨"2024-01-01", 120, 50, 1⟩ : DayBucket) ∈
        (buildByDay pdWitness itemsWitness).map Prod.snd := by
      rw [hbuild]
      simp
    exact (List.mergeSort_perm _ _).mem_iff.mpr h1
  have htr1 : ({ emptyTrace with time := some "2024-01-01T10:00:00Z", latency_ms := some 120,
                                 total_tokens := some 50 } : Trace) ∈ itemsWitness := by
    simp [itemsWitness]
  have htr1key : dayKey pdWitness { emptyTrace with time := some "2024-01-01T10:00:00Z",
                                                    latency_ms := some 120,
                                                    total_tokens := some 50 } =
      some "2024-01-01" := by
    simp [dayKey, pdWitness, emptyTrace]
  have hbad : ({ emptyTrace with time := some "not-a-date" } : Trace) ∈ itemsWitness := by
    simp [itemsWitness]
  have hbadkey : dayKey pdWitness { emptyTrace with time := some "not-a-date" } = none := by
    simp [dayKey, pdWitness, emptyTrace]
  exact ⟨⟨hmemB, (groupByDay_spec pdWitness itemsWitness).2.1 _ hmemB⟩,
         ⟨htr1, htr1key,
          (groupByDay_spec pdWitness itemsWitness).2.2.1 _ htr1 "2024-01-01" htr1key⟩,
         hbad, hbadkey, (groupByDay_spec pdWitness itemsWitness).2.2.2 _ hbad hbadkey⟩
